import Mathlib

/-!
Verification development for the localfiles.stream local asset persistence
layer: the share-validation functions (`src/fileValidation.js`), the main
module's blob/metadata storage and library operations (`src/main.js`), the
object-URL handle manager, and the share-ingest staging store written by the
service worker (`public/sw.js`).

The JavaScript source is shallowly embedded: the values the validation code
inspects are modelled by a small JS-primitive type (undefined, null, string,
number), IndexedDB object stores by association lists with overwrite-on-put
semantics and a byte quota, and localStorage by a three-state value (absent,
unparseable, parsed snapshot).
-/

namespace LocalFiles

/-! ### JS primitive values, as far as the validation functions inspect them -/

/-- A JavaScript primitive value: `undefined`, `null`, a string or a number.
The validation functions in `src/fileValidation.js` only ever test truthiness
and comparison with `undefined`, so this fragment is sufficient. -/
inductive JPrim where
  | undefinedV
  | nullv
  | str (s : String)
  | num (n : Int)
deriving DecidableEq, Repr

/-- JavaScript truthiness of a primitive: `undefined`, `null`, `""` and `0`
are falsy, every other string or number is truthy. -/
def JPrim.truthy : JPrim → Bool
  | .undefinedV => false
  | .nullv => false
  | .str s => s ≠ ""
  | .num n => n ≠ 0

/-- A primitive is defined when it is not `undefined` (`x !== undefined`). -/
def JPrim.defined : JPrim → Bool
  | .undefinedV => false
  | _ => true

/-- A File (or file-like) object as the validation code sees it: the `name`,
`type` and `size` properties, plus the byte content, which the validation
never inspects but which the store carries along. -/
structure FileObject where
  name : JPrim
  type : JPrim
  size : JPrim
  bytes : List Nat
deriving DecidableEq, Repr

/-- The value found in a share entry's `file` slot: a File object, or
`undefined` / `null` in the buggy entries the validation exists to filter. -/
inductive FileVal where
  | undefinedV
  | nullv
  | fileObj (f : FileObject)
deriving DecidableEq, Repr

/-- JavaScript truthiness of a `file` slot: objects are truthy,
`undefined` and `null` are falsy. -/
def FileVal.truthy : FileVal → Bool
  | .fileObj _ => true
  | _ => false

/-- A value in the `sharedFiles` staging store: `undefined`, `null`, or an
entry object `{ id, name, type, size, file, dateShared }`. The `id` and
`dateShared` fields are never inspected by the validation code and are
omitted. -/
inductive SharedVal where
  | undefinedV
  | nullv
  | entry (name type size : JPrim) (file : FileVal)
deriving DecidableEq, Repr

/-- The `file` property of a shared value (`undefined` on non-objects). -/
def SharedVal.filePart : SharedVal → FileVal
  | .entry _ _ _ file => file
  | _ => .undefinedV

/-! ### src/fileValidation.js -/

/-- `isValidSharedFile` from `src/fileValidation.js`: false unless the value
is an object (`!sharedFile || typeof sharedFile !== 'object'`) whose `file`
property is truthy (`!sharedFile.file`). -/
def isValidSharedFile : SharedVal → Bool
  | .undefinedV => false
  | .nullv => false
  | .entry _ _ _ file => file.truthy

/-- `isValidFileObject` from `src/fileValidation.js`: false unless the value
is an object whose `name` and `type` are truthy and whose `size` is not
`undefined` (`!file.name || !file.type || file.size === undefined`). -/
def isValidFileObject : FileVal → Bool
  | .undefinedV => false
  | .nullv => false
  | .fileObj f => f.name.truthy && f.type.truthy && f.size.defined

/-- `filterValidSharedFiles` from `src/fileValidation.js`: a non-array input
(`!Array.isArray(sharedFiles)`, modelled by `none`) yields `[]`; otherwise
the entries are filtered with `isValidSharedFile`, mapped to their `file`
property, and filtered again with `isValidFileObject`. Each rejection only
logs a warning. -/
def filterValidSharedFiles : Option (List SharedVal) → List FileVal
  | none => []
  | some xs =>
      ((xs.filter isValidSharedFile).map SharedVal.filePart).filter isValidFileObject

/-- The acceptance predicate in the words of the specification sentence
"a ShareEntry is valid only if its payload is present and non-empty and its
descriptor fields (name, mimeType, sizeBytes) are all defined": the payload
slot holds an object, and the entry's three descriptor fields are not
`undefined`. Stated for comparison with the source's validation above. -/
def specAcceptsShared : SharedVal → Bool
  | .entry name type size file => file.truthy && name.defined && type.defined && size.defined
  | _ => false

/-! ### The asset store of src/main.js

Asset ids in the source are the strings `file-${Date.now()}-${i}` (uploads)
and `shared-${Date.now()}-${i}` (share entries). Decimal rendering makes the
encoding injective, so ids are modelled by a structured type. -/

/-- An asset id: `file-now-idx` or `shared-now-idx`. -/
inductive MediaId where
  | upload (now idx : Nat)
  | share (now idx : Nat)
deriving DecidableEq, Repr

/-- A well-formed File object as delivered by the file picker or the share
form data: string name and MIME type, numeric size, and the byte payload. -/
structure JFile where
  name : String
  mime : String
  size : Nat
  bytes : List Nat
deriving DecidableEq, Repr

/-- An in-memory library record, the object addFiles builds:
`{ id, name, type, size, file, progress, dateAdded }`. The `file` field is
the binary payload; `progress` is the playback position in seconds. -/
structure MediaFile where
  id : MediaId
  name : String
  type : String
  size : Nat
  file : JFile
  progress : Rat
  dateAdded : Nat
deriving DecidableEq

/-- A persisted metadata record: every field of a `MediaFile` except the
binary `file` payload. -/
structure StoredMeta where
  id : MediaId
  name : String
  type : String
  size : Nat
  progress : Rat
  dateAdded : Nat
deriving DecidableEq

/-- The destructuring `const { file: blob, ...meta } = file` in
`saveMetadataToLocalStorage`: keep every field except the payload. -/
def stripFile (m : MediaFile) : StoredMeta :=
  { id := m.id, name := m.name, type := m.type, size := m.size,
    progress := m.progress, dateAdded := m.dateAdded }

/-- What `localStorage` holds under the metadata key: nothing
(`getItem` returns `null`), an unparseable string (`JSON.parse` throws), or a
parseable snapshot. -/
inductive LSVal where
  | absent
  | corrupt
  | snapshot (metas : List StoredMeta)
deriving DecidableEq

/-! Association-list primitives for IndexedDB object stores and Maps. -/

/-- Key lookup in an association list (first match wins, as in a Map or an
IndexedDB store whose entries are unique by key). -/
def alookup {β : Type} : List (MediaId × β) → MediaId → Option β
  | [], _ => none
  | e :: rest, id => if e.1 = id then some e.2 else alookup rest id

/-- Remove every entry with the given key (`Map.delete`, or the overwrite
step of an IndexedDB `put`). -/
def aerase {β : Type} : List (MediaId × β) → MediaId → List (MediaId × β)
  | [], _ => []
  | e :: rest, id => if e.1 = id then aerase rest id else e :: aerase rest id

/-- The `mediaFiles` IndexedDB object store (`{ id, blob }` records) together
with the byte quota the browser enforces on it. -/
structure BlobStore where
  entries : List (MediaId × JFile)
  quota : Nat
deriving DecidableEq

/-- Total number of payload bytes held by a list of store entries. -/
def sizeSum (l : List (MediaId × JFile)) : Nat :=
  (l.map (fun e => e.2.size)).sum

/-- `storeFileBlob` from `src/main.js`: `store.put({ id: fileId, blob })` in
its own transaction. A put overwrites silently if the id exists; it rejects
with QuotaExceeded (modelled by `none`) when the store would exceed its
quota, leaving the store unchanged. -/
def storeFileBlob (bs : BlobStore) (id : MediaId) (f : JFile) : Option BlobStore :=
  if sizeSum ((id, f) :: aerase bs.entries id) ≤ bs.quota then
    some { bs with entries := (id, f) :: aerase bs.entries id }
  else none

/-- `retrieveFileBlob` from `src/main.js`: `store.get(fileId)`, resolving to
the blob or to `null` (`none`) when the id is absent. -/
def retrieveFileBlob (bs : BlobStore) (id : MediaId) : Option JFile :=
  alookup bs.entries id

/-! ### localStorage metadata (src/main.js) -/

/-- The body of `getMetadataFromLocalStorage` without its try/catch:
`getItem` returning `null` yields `[]` without parsing; `JSON.parse` on a
corrupt string throws (modelled by `.error`); otherwise the parsed snapshot
is returned. -/
def rawReadMetadata : LSVal → Except String (List StoredMeta)
  | .absent => .ok []
  | .corrupt => .error "SyntaxError"
  | .snapshot metas => .ok metas

/-- `getMetadataFromLocalStorage` from `src/main.js`: the raw read wrapped in
try/catch, returning `[]` on any error. -/
def getMetadataFromLocalStorage (ls : LSVal) : List StoredMeta :=
  match rawReadMetadata ls with
  | .ok metas => metas
  | .error _ => []

/-- `saveMetadataToLocalStorage` from `src/main.js`: strips the binary
payload from every record and writes the whole list as one snapshot. -/
def saveMetadataToLocalStorage (arr : List MediaFile) : LSVal :=
  .snapshot (arr.map stripFile)

/-- Rebuilding an in-memory record from its persisted metadata and its blob:
`{ ...meta, file: blob }` in `loadData`. -/
def rehydrate (m : StoredMeta) (b : JFile) : MediaFile :=
  { id := m.id, name := m.name, type := m.type, size := m.size,
    file := b, progress := m.progress, dateAdded := m.dateAdded }

/-- `loadData` from `src/main.js`: read the metadata snapshot, and for each
record fetch its blob from IndexedDB; a record whose blob is missing (or
whose fetch rejects) is skipped with a warning, the rest are rehydrated in
order. -/
def loadData (ls : LSVal) (bs : BlobStore) : List MediaFile :=
  (getMetadataFromLocalStorage ls).filterMap
    (fun m => (retrieveFileBlob bs m.id).map (rehydrate m))

/-! ### The application state and addFiles (src/main.js) -/

/-- The mutable state the main module owns: the reactive `mediaFiles` list,
the localStorage metadata snapshot, the IndexedDB blob store, and the
`sharedFiles` staging store written by the service worker. -/
structure AppState where
  mediaFiles : List MediaFile
  localStorage : LSVal
  blobs : BlobStore
  staging : List SharedVal
deriving DecidableEq

/-- `MAX_FILE_SIZE` from addFiles: 50 MB. -/
def MAX_FILE_SIZE : Nat := 50 * 1024 * 1024

/-- A user-visible `alert(...)` raised during addFiles. -/
inductive Alert where
  | oversized (name : String)
  | storageError (name : String)
  | success (count : Nat)
deriving DecidableEq, Repr

/-- The record addFiles builds for an accepted file at index `idx`. -/
def mkMediaFile (now idx : Nat) (f : JFile) : MediaFile :=
  { id := .upload now idx, name := f.name, type := f.mime, size := f.size,
    file := f, progress := 0, dateAdded := now }

/-- The per-file loop of `addFiles`: an oversized file is reported and
skipped (`continue`); otherwise its blob is put into IndexedDB — on success
the record joins `newFiles`, on a storage failure the file is reported and
skipped (`continue`), and in either case the loop proceeds with the rest of
the batch. Returns the final blob store, the accepted records in order, and
the alerts raised. -/
def processBatch (now : Nat) : BlobStore → List JFile → Nat → BlobStore × List MediaFile × List Alert
  | bs, [], _ => (bs, [], [])
  | bs, f :: rest, i =>
    if MAX_FILE_SIZE < f.size then
      let r := processBatch now bs rest (i + 1)
      (r.1, r.2.1, .oversized f.name :: r.2.2)
    else
      match storeFileBlob bs (MediaId.upload now i) f with
      | some bs2 =>
          let r := processBatch now bs2 rest (i + 1)
          (r.1, mkMediaFile now i f :: r.2.1, r.2.2)
      | none =>
          let r := processBatch now bs rest (i + 1)
          (r.1, r.2.1, .storageError f.name :: r.2.2)

/-- `addFiles` from `src/main.js`. A `none` argument models a `null` or
`undefined` files list; together with an empty list it returns immediately
(`if (!files || files.length === 0) return`). Otherwise each file is
processed by the loop above; if any were accepted, they are appended to the
library, the whole metadata list is re-saved, and a success alert is shown. -/
def addFiles (s : AppState) (now : Nat) (files : Option (List JFile)) : AppState × List Alert :=
  match files with
  | none => (s, [])
  | some fs =>
    if fs.length = 0 then (s, [])
    else
      let r := processBatch now s.blobs fs 0
      if r.2.1.length = 0 then
        ({ s with blobs := r.1 }, r.2.2)
      else
        let updated := s.mediaFiles ++ r.2.1
        let s2 : AppState :=
          { s with mediaFiles := updated, blobs := r.1,
                   localStorage := saveMetadataToLocalStorage updated }
        (s2, r.2.2 ++ [.success r.2.1.length])

/-- `updateProgress` from `src/main.js`: rewrite the progress of every record
with the reported id and re-save the whole metadata list (write-through on
every time report). -/
def updateProgress (s : AppState) (id : MediaId) (t : Rat) : AppState :=
  let updated := s.mediaFiles.map (fun f => if f.id = id then { f with progress := t } else f)
  { s with mediaFiles := updated, localStorage := saveMetadataToLocalStorage updated }

/-! ### Object-URL handle manager (src/main.js) -/

/-- The `objectUrls` Map together with an allocation counter. The browser's
`URL.createObjectURL` returns a fresh, never-before-seen URL on every call;
freshness is modelled by handing out the counter value and incrementing it. -/
structure HandleState where
  objectUrls : List (MediaId × Nat)
  nextUrl : Nat
deriving DecidableEq

/-- `createAndTrackObjectURL` from `src/main.js`: if the Map already holds a
URL for the file's id, return it; otherwise allocate a fresh URL, record it
in the Map and return it. -/
def createAndTrackObjectURL (st : HandleState) (fileId : MediaId) : Nat × HandleState :=
  match alookup st.objectUrls fileId with
  | some url => (url, st)
  | none =>
      (st.nextUrl,
       { objectUrls := (fileId, st.nextUrl) :: st.objectUrls,
         nextUrl := st.nextUrl + 1 })

/-- `releaseObjectURL` from `src/main.js`: if the Map holds a URL for the id,
revoke it and delete the mapping; otherwise do nothing. -/
def releaseObjectURL (st : HandleState) (fileId : MediaId) : HandleState :=
  match alookup st.objectUrls fileId with
  | some _ => { st with objectUrls := aerase st.objectUrls fileId }
  | none => st

/-- Every URL in the Map was allocated before the counter's current value.
Holds of the empty initial state and is preserved by acquire and release. -/
def HandleWF (st : HandleState) : Prop :=
  ∀ p ∈ st.objectUrls, p.2 < st.nextUrl

/-! ### Share-ingest staging store -/

/-- Wrapping a `File` as the service worker's `fileData` entry:
`{ id, name, type, size, file, dateShared }` from `public/sw.js`. -/
def mkSharedEntry (f : JFile) : SharedVal :=
  .entry (.str f.name) (.str f.mime) (.num f.size)
    (.fileObj { name := .str f.name, type := .str f.mime,
                size := .num f.size, bytes := f.bytes })

/-- `storeSharedFiles` from `public/sw.js`: clear the `sharedFiles` staging
store, then put one entry per received file. -/
def storeSharedFiles (s : AppState) (files : List JFile) : AppState :=
  { s with staging := files.map mkSharedEntry }

/-- Recover the well-typed file from a payload that passed validation; the
string/number extraction mirrors how the producer stored the fields. -/
def fileOfPayload : FileVal → Option JFile
  | .fileObj fo =>
      match fo.name, fo.type, fo.size with
      | .str n, .str t, .num sz => some { name := n, mime := t, size := sz.toNat, bytes := fo.bytes }
      | _, _, _ => none
  | _ => none

/-- Modelled from the spec: the foreground drain (`processSharedFiles` in the
application's main module, which is not part of this tree — only its
simulation in `src/shareFlow.js` and its validator in
`src/fileValidation.js` are). Per spec section 4.4 the consumer (a) reads all
entries from the staging store, (b) validates each with the repository's
`filterValidSharedFiles`, (c) ingests every valid entry exactly as if it had
been chosen via the file picker (`addFiles`), and (d) clears the staging
store. Returns the new state and the number of entries ingested. -/
def drainSharedFiles (s : AppState) (now : Nat) : AppState × Nat :=
  let valid := filterValidSharedFiles (some s.staging)
  let files := valid.filterMap fileOfPayload
  let r := addFiles s now (some files)
  ({ r.1 with staging := [] }, files.length)

/-! ### Concrete inputs used by counterexamples and witnesses -/

/-- A file within the size limit, used in sample batches. -/
def sampleFileA : JFile :=
  { name := "a.mp4", mime := "video/mp4", size := 3, bytes := [1, 2, 3] }

/-- A second file within the size limit. -/
def sampleFileB : JFile :=
  { name := "b.mp4", mime := "audio/mpeg", size := 2, bytes := [4, 5] }

/-- A staged entry whose `file` payload is missing (`undefined`). -/
def missingPayloadEntry : SharedVal :=
  .entry (.str "c.mp4") (.str "video/mp4") (.num 7) .undefinedV

/-- A staged entry with all descriptor fields defined whose payload is a File
object carrying an empty `name` string: the payload is present and the
entry's name, type and size are all defined, yet the validation rejects it
because `!file.name` is true for the empty string. -/
def emptyNameEntry : SharedVal :=
  .entry (.str "clip.mp4") (.str "video/mp4") (.num 1024)
    (.fileObj { name := .str "", type := .str "video/mp4",
                size := .num 1024, bytes := [1] })

/-- A file's size is within the `MAX_FILE_SIZE` ceiling. -/
def okSize (f : JFile) : Bool :=
  decide (f.size ≤ MAX_FILE_SIZE)

/-- An application state with nothing stored and the given blob quota. -/
def emptyState (q : Nat) : AppState :=
  { mediaFiles := [], localStorage := .absent,
    blobs := { entries := [], quota := q }, staging := [] }

/-- 4-byte file for the quota scenario. -/
def quotaFileA : JFile :=
  { name := "qa.mp4", mime := "video/mp4", size := 4, bytes := [0, 0, 0, 0] }

/-- 8-byte file for the quota scenario: too large for what remains of the
quota once `quotaFileA` is stored. -/
def quotaFileB : JFile :=
  { name := "qb.mp4", mime := "video/mp4", size := 8,
    bytes := [0, 0, 0, 0, 0, 0, 0, 0] }

/-- 3-byte file for the quota scenario: still fits after `quotaFileB`
failed. -/
def quotaFileC : JFile :=
  { name := "qc.mp4", mime := "video/mp4", size := 3, bytes := [0, 0, 0] }

/-- A file exceeding the 50 MB ceiling by one byte (its byte list is left
empty; only the `size` property is consulted by the limit check). -/
def oversizedFile : JFile :=
  { name := "big.mp4", mime := "video/mp4", size := 52428801, bytes := [] }

/-- The blob payload of the witness library entry. -/
def wFile : JFile :=
  { name := "w.mp4", mime := "video/mp4", size := 3, bytes := [9, 9, 9] }

/-- The witness library entry. -/
def wMedia : MediaFile :=
  { id := .upload 1 0, name := "w.mp4", type := "video/mp4", size := 3,
    file := wFile, progress := 0, dateAdded := 1 }

/-- A one-asset state whose metadata snapshot and blob store agree. -/
def wState : AppState :=
  { mediaFiles := [wMedia],
    localStorage := .snapshot [stripFile wMedia],
    blobs := { entries := [(.upload 1 0, wFile)], quota := 100 },
    staging := [] }

/-- The handle manager's initial state: no tracked URLs. -/
def emptyHandles : HandleState :=
  { objectUrls := [], nextUrl := 0 }

/-! ### Helper lemmas -/

theorem stripFile_rehydrate (m : StoredMeta) (b : JFile) :
    stripFile (rehydrate m b) = m := by
  cases m; rfl

theorem filter_map_filter {α β : Type} (p : α → Bool) (f : α → β) (q : β → Bool)
    (l : List α) :
    ((l.filter p).map f).filter q
      = (l.filter (fun a => p a && q (f a))).map f := by
  induction l with
  | nil => rfl
  | cons a rest ih =>
      by_cases hp : p a
      · by_cases hq : q (f a) <;> simp [List.filter_cons, hp, hq, ih]
      · simp [List.filter_cons, hp, ih]

theorem sizeSum_cons (e : MediaId × JFile) (l : List (MediaId × JFile)) :
    sizeSum (e :: l) = e.2.size + sizeSum l := rfl

theorem alookup_cons {β : Type} (e : MediaId × β) (l : List (MediaId × β)) (id : MediaId) :
    alookup (e :: l) id = if e.1 = id then some e.2 else alookup l id := rfl

theorem alookup_aerase_self {β : Type} (l : List (MediaId × β)) (id : MediaId) :
    alookup (aerase l id) id = none := by
  induction l with
  | nil => rfl
  | cons e rest ih =>
      unfold aerase
      by_cases h : e.1 = id
      · rw [if_pos h]
        exact ih
      · rw [if_neg h, alookup_cons, if_neg h]
        exact ih

theorem alookup_aerase_ne {β : Type} (l : List (MediaId × β)) (id k : MediaId)
    (hne : k ≠ id) : alookup (aerase l id) k = alookup l k := by
  induction l with
  | nil => rfl
  | cons e rest ih =>
      unfold aerase
      by_cases h : e.1 = id
      · have hek : ¬(e.1 = k) := by rw [h]; exact fun hh => hne hh.symm
        rw [if_pos h, alookup_cons, if_neg hek]
        exact ih
      · rw [if_neg h, alookup_cons, alookup_cons]
        by_cases hek : e.1 = k
        · rw [if_pos hek, if_pos hek]
        · rw [if_neg hek, if_neg hek]
          exact ih

theorem alookup_mem {β : Type} {l : List (MediaId × β)} {id : MediaId} {v : β}
    (h : alookup l id = some v) : (id, v) ∈ l := by
  induction l with
  | nil => cases h
  | cons e rest ih =>
      rw [alookup_cons] at h
      by_cases he : e.1 = id
      · rw [if_pos he] at h
        injection h with hv
        refine List.mem_cons.mpr (Or.inl ?_)
        rw [← he, ← hv]
      · rw [if_neg he] at h
        exact List.mem_cons.mpr (Or.inr (ih h))

theorem sizeSum_aerase_le (l : List (MediaId × JFile)) (id : MediaId) :
    sizeSum (aerase l id) ≤ sizeSum l := by
  induction l with
  | nil => exact Nat.le_refl 0
  | cons e rest ih =>
      unfold aerase
      rw [sizeSum_cons]
      by_cases h : e.1 = id
      · rw [if_pos h]
        omega
      · rw [if_neg h, sizeSum_cons]
        omega

theorem storeFileBlob_eq_some {bs : BlobStore} {id : MediaId} {f : JFile} {bs2 : BlobStore}
    (h : storeFileBlob bs id f = some bs2) :
    bs2.entries = (id, f) :: aerase bs.entries id ∧ bs2.quota = bs.quota := by
  unfold storeFileBlob at h
  split at h
  · injection h with h2
    rw [← h2]
    exact ⟨rfl, rfl⟩
  · cases h

theorem storeFileBlob_succeeds (bs : BlobStore) (id : MediaId) (f : JFile)
    (h : sizeSum ((id, f) :: aerase bs.entries id) ≤ bs.quota) :
    storeFileBlob bs id f = some { bs with entries := (id, f) :: aerase bs.entries id } := by
  unfold storeFileBlob
  rw [if_pos h]

/-! Equation lemmas for the addFiles loop. -/

theorem processBatch_nil (now : Nat) (bs : BlobStore) (i : Nat) :
    processBatch now bs [] i = (bs, [], []) := rfl

theorem processBatch_cons_oversized (now : Nat) (bs : BlobStore) (f : JFile)
    (rest : List JFile) (i : Nat) (h : MAX_FILE_SIZE < f.size) :
    processBatch now bs (f :: rest) i
      = ((processBatch now bs rest (i + 1)).1,
         (processBatch now bs rest (i + 1)).2.1,
         .oversized f.name :: (processBatch now bs rest (i + 1)).2.2) := by
  simp only [processBatch]
  rw [if_pos h]

theorem processBatch_cons_ok (now : Nat) (bs : BlobStore) (f : JFile)
    (rest : List JFile) (i : Nat) (bs2 : BlobStore) (h : ¬MAX_FILE_SIZE < f.size)
    (hput : storeFileBlob bs (MediaId.upload now i) f = some bs2) :
    processBatch now bs (f :: rest) i
      = ((processBatch now bs2 rest (i + 1)).1,
         mkMediaFile now i f :: (processBatch now bs2 rest (i + 1)).2.1,
         (processBatch now bs2 rest (i + 1)).2.2) := by
  simp only [processBatch]
  rw [if_neg h, hput]

theorem processBatch_cons_fail (now : Nat) (bs : BlobStore) (f : JFile)
    (rest : List JFile) (i : Nat) (h : ¬MAX_FILE_SIZE < f.size)
    (hput : storeFileBlob bs (MediaId.upload now i) f = none) :
    processBatch now bs (f :: rest) i
      = ((processBatch now bs rest (i + 1)).1,
         (processBatch now bs rest (i + 1)).2.1,
         .storageError f.name :: (processBatch now bs rest (i + 1)).2.2) := by
  simp only [processBatch]
  rw [if_neg h, hput]

/-- Entries whose id is not one the loop can generate from position `i`
onwards are untouched by the loop. -/
theorem processBatch_preserves (now : Nat) (fs : List JFile) :
    ∀ (bs : BlobStore) (i : Nat) (id : MediaId),
      (∀ k, i ≤ k → id ≠ .upload now k) →
      alookup (processBatch now bs fs i).1.entries id = alookup bs.entries id := by
  induction fs with
  | nil => intro bs i id _; rfl
  | cons f rest ih =>
      intro bs i id h
      by_cases hsz : MAX_FILE_SIZE < f.size
      · rw [processBatch_cons_oversized now bs f rest i hsz]
        exact ih bs (i + 1) id (fun k hk => h k (Nat.le_of_succ_le hk))
      · cases hput : storeFileBlob bs (MediaId.upload now i) f with
        | some bs2 =>
            rw [processBatch_cons_ok now bs f rest i bs2 hsz hput]
            rw [ih bs2 (i + 1) id (fun k hk => h k (Nat.le_of_succ_le hk))]
            obtain ⟨he, _⟩ := storeFileBlob_eq_some hput
            rw [he, alookup_cons]
            have hne : ¬((MediaId.upload now i, f).1 = id) :=
              fun hc => (h i (Nat.le_refl i)) hc.symm
            rw [if_neg hne]
            exact alookup_aerase_ne bs.entries (MediaId.upload now i) id
              (fun hc => (h i (Nat.le_refl i)) hc)
        | none =>
            rw [processBatch_cons_fail now bs f rest i hsz hput]
            exact ih bs (i + 1) id (fun k hk => h k (Nat.le_of_succ_le hk))

/-- Every record accepted by the loop has its blob present in the final
store: a put that succeeded is never undone by a later failure. -/
theorem processBatch_stored (now : Nat) (fs : List JFile) :
    ∀ (bs : BlobStore) (i : Nat),
      ∀ m ∈ (processBatch now bs fs i).2.1,
        retrieveFileBlob (processBatch now bs fs i).1 m.id = some m.file := by
  induction fs with
  | nil => intro bs i m hm; rw [processBatch_nil] at hm; cases hm
  | cons f rest ih =>
      intro bs i m hm
      by_cases hsz : MAX_FILE_SIZE < f.size
      · rw [processBatch_cons_oversized now bs f rest i hsz] at hm ⊢
        exact ih bs (i + 1) m hm
      · cases hput : storeFileBlob bs (MediaId.upload now i) f with
        | some bs2 =>
            rw [processBatch_cons_ok now bs f rest i bs2 hsz hput] at hm ⊢
            rcases List.mem_cons.mp hm with hm1 | hm2
            · subst hm1
              have hid : (mkMediaFile now i f).id = MediaId.upload now i := rfl
              unfold retrieveFileBlob
              rw [hid]
              rw [processBatch_preserves now rest bs2 (i + 1) (MediaId.upload now i)
                    (fun k hk hc => by
                      injection hc with _ h2
                      omega)]
              obtain ⟨he, _⟩ := storeFileBlob_eq_some hput
              rw [he, alookup_cons, if_pos rfl]
              rfl
            · exact ih bs2 (i + 1) m hm2
        | none =>
            rw [processBatch_cons_fail now bs f rest i hsz hput] at hm ⊢
            exact ih bs (i + 1) m hm

/-- Every file of the batch is accounted for: it either becomes an accepted
record or raises exactly one alert — nothing is silently dropped and a
failure never cuts the batch short. -/
theorem processBatch_count (now : Nat) (fs : List JFile) :
    ∀ (bs : BlobStore) (i : Nat),
      (processBatch now bs fs i).2.1.length + (processBatch now bs fs i).2.2.length
        = fs.length := by
  induction fs with
  | nil => intro bs i; rfl
  | cons f rest ih =>
      intro bs i
      by_cases hsz : MAX_FILE_SIZE < f.size
      · rw [processBatch_cons_oversized now bs f rest i hsz]
        simp only [List.length_cons]
        have := ih bs (i + 1)
        omega
      · cases hput : storeFileBlob bs (MediaId.upload now i) f with
        | some bs2 =>
            rw [processBatch_cons_ok now bs f rest i bs2 hsz hput]
            simp only [List.length_cons]
            have := ih bs2 (i + 1)
            omega
        | none =>
            rw [processBatch_cons_fail now bs f rest i hsz hput]
            simp only [List.length_cons]
            have := ih bs (i + 1)
            omega

/-- When the quota accommodates every file within the size limit, the loop
accepts exactly the files within the limit and the only alerts are the
oversized reports, in batch order. -/
theorem processBatch_success (now : Nat) (fs : List JFile) :
    ∀ (bs : BlobStore) (i : Nat),
      sizeSum bs.entries + ((fs.filter okSize).map JFile.size).sum ≤ bs.quota →
      (processBatch now bs fs i).2.1.length = (fs.filter okSize).length
      ∧ (processBatch now bs fs i).2.2
          = (fs.filter (fun f => !(okSize f))).map (fun f => Alert.oversized f.name) := by
  induction fs with
  | nil => intro bs i _; exact ⟨rfl, rfl⟩
  | cons f rest ih =>
      intro bs i hq
      by_cases hsz : MAX_FILE_SIZE < f.size
      · have hok : okSize f = false := by
          unfold okSize
          simp only [decide_eq_false_iff_not]
          omega
        have hq2 : sizeSum bs.entries + ((rest.filter okSize).map JFile.size).sum ≤ bs.quota := by
          rw [List.filter_cons, hok] at hq
          exact hq
        rw [processBatch_cons_oversized now bs f rest i hsz]
        obtain ⟨ih1, ih2⟩ := ih bs (i + 1) hq2
        simp [List.filter_cons, hok, ih1, ih2]
      · have hok : okSize f = true := by
          unfold okSize
          simp only [decide_eq_true_eq]
          omega
        have hsum : (((f :: rest).filter okSize).map JFile.size).sum
            = f.size + ((rest.filter okSize).map JFile.size).sum := by
          rw [List.filter_cons, hok]
          simp
        rw [hsum] at hq
        have h1 := sizeSum_aerase_le bs.entries (MediaId.upload now i)
        have hfit : sizeSum ((MediaId.upload now i, f) :: aerase bs.entries (MediaId.upload now i))
            ≤ bs.quota := by
          show f.size + sizeSum (aerase bs.entries (MediaId.upload now i)) ≤ bs.quota
          omega
        have hput := storeFileBlob_succeeds bs (MediaId.upload now i) f hfit
        rw [processBatch_cons_ok now bs f rest i _ hsz hput]
        have hq2 : sizeSum ((MediaId.upload now i, f) :: aerase bs.entries (MediaId.upload now i))
            + ((rest.filter okSize).map JFile.size).sum ≤ bs.quota := by
          show f.size + sizeSum (aerase bs.entries (MediaId.upload now i))
              + ((rest.filter okSize).map JFile.size).sum ≤ bs.quota
          omega
        obtain ⟨ih1, ih2⟩ := ih
          { bs with entries := (MediaId.upload now i, f) :: aerase bs.entries (MediaId.upload now i) }
          (i + 1) hq2
        simp [List.filter_cons, hok, ih1, ih2]

/-! ### C1: share-entry validation -/

/-- C1 (counterexample): the claim accepts any entry whose payload is present
and whose name, mimeType and sizeBytes are all defined, but the code also
rejects a present payload whose `name` is the (defined) empty string, so the
claimed "if and only if" fails at this entry: `specAcceptsShared` holds, yet
share ingestion discards it. -/
theorem c1_counterexample :
    specAcceptsShared emptyNameEntry = true
    ∧ filterValidSharedFiles (some [emptyNameEntry]) = [] := by
  decide

/-- C1 (amended): an entry is accepted by share ingestion iff it is an object
whose payload slot is truthy (`isValidSharedFile`) and whose payload's name
and type are truthy and size is not undefined (`isValidFileObject`); every
other entry is discarded with a warning and ingestion never throws — every
accepted value is a genuine File object, so later property access is safe —
and the staged batch [valid, missing payload, valid] yields exactly 2
ingested files. -/
theorem c1_share_validation (xs : List SharedVal) :
    filterValidSharedFiles (some xs)
      = (xs.filter (fun v => isValidSharedFile v && isValidFileObject v.filePart)).map
          SharedVal.filePart
    ∧ (∀ f ∈ filterValidSharedFiles (some xs), ∃ fo, f = FileVal.fileObj fo)
    ∧ (filterValidSharedFiles
        (some [mkSharedEntry sampleFileA, missingPayloadEntry,
               mkSharedEntry sampleFileB])).length = 2 := by
  refine ⟨filter_map_filter _ _ _ xs, ?_, by decide⟩
  intro f hf
  unfold filterValidSharedFiles at hf
  have hvalid := List.of_mem_filter hf
  cases f with
  | undefinedV => simp [isValidFileObject] at hvalid
  | nullv => simp [isValidFileObject] at hvalid
  | fileObj fo => exact ⟨fo, rfl⟩

/-- C1 (witness): the accepted payload of a concrete valid staged entry is a
genuine File object. -/
theorem c1_share_validation_witness :
    (mkSharedEntry sampleFileA).filePart
        ∈ filterValidSharedFiles (some [mkSharedEntry sampleFileA])
    ∧ ∃ fo, (mkSharedEntry sampleFileA).filePart = FileVal.fileObj fo :=
  ⟨by decide,
   (c1_share_validation [mkSharedEntry sampleFileA]).2.1
     (mkSharedEntry sampleFileA).filePart (by decide)⟩

/-! ### C2: at-most-once drain -/

/-- C2: draining the staging store leaves it empty, and a second drain right
after ingests zero entries and changes nothing: the batch is ingested at
most once. -/
theorem c2_drain_at_most_once (s : AppState) (now now2 : Nat) :
    (drainSharedFiles s now).1.staging = []
    ∧ drainSharedFiles (drainSharedFiles s now).1 now2
        = ((drainSharedFiles s now).1, 0) := by
  exact ⟨rfl, rfl⟩

/-! ### C3: QuotaExceeded during a batch add -/

/-- C3 (counterexample): with a 10-byte quota and the batch [4-byte, 8-byte,
3-byte], the second put fails with QuotaExceeded and is reported, yet the
batch is not aborted: the third file, after the failure, is stored — the
claim's "the remaining items of that batch are aborted" is false on the
code. -/
theorem c3_counterexample :
    Alert.storageError "qb.mp4"
        ∈ (addFiles (emptyState 10) 5 (some [quotaFileA, quotaFileB, quotaFileC])).2
    ∧ retrieveFileBlob (addFiles (emptyState 10) 5
          (some [quotaFileA, quotaFileB, quotaFileC])).1.blobs (MediaId.upload 5 2)
        = some quotaFileC := by
  decide

/-- C3 (amended): when a put fails with QuotaExceeded, that item is skipped
and reported with a user-visible message and the remaining items of the
batch are still attempted; every item stored earlier in the batch is kept —
prior successful puts are not rolled back. Formally: every accepted record's
blob is present in the final store, every file of the batch is either
accepted or reported (never silently dropped, never cut short), and in the
concrete failing batch the file stored before the failure is still present
at the end. -/
theorem c3_quota_partial_batch (bs : BlobStore) (now : Nat) (fs : List JFile) (i : Nat) :
    (∀ m ∈ (processBatch now bs fs i).2.1,
        retrieveFileBlob (processBatch now bs fs i).1 m.id = some m.file)
    ∧ (processBatch now bs fs i).2.1.length + (processBatch now bs fs i).2.2.length
        = fs.length
    ∧ retrieveFileBlob (addFiles (emptyState 10) 5
          (some [quotaFileA, quotaFileB, quotaFileC])).1.blobs (MediaId.upload 5 0)
        = some quotaFileA :=
  ⟨processBatch_stored now fs bs i, processBatch_count now fs bs i, by decide⟩

/-- C3 (amended, witness): in the concrete failing batch the record accepted
before the quota failure still has its blob in the final store. -/
theorem c3_quota_partial_batch_witness :
    (mkMediaFile 5 0 quotaFileA
        ∈ (processBatch 5 (emptyState 10).blobs [quotaFileA, quotaFileB, quotaFileC] 0).2.1)
    ∧ retrieveFileBlob
        (processBatch 5 (emptyState 10).blobs [quotaFileA, quotaFileB, quotaFileC] 0).1
        (mkMediaFile 5 0 quotaFileA).id = some (mkMediaFile 5 0 quotaFileA).file :=
  ⟨by decide,
   (c3_quota_partial_batch (emptyState 10).blobs 5 [quotaFileA, quotaFileB, quotaFileC] 0).1
     (mkMediaFile 5 0 quotaFileA) (by decide)⟩

/-! ### C4: progress write-through and reload -/

/-- C4: for an asset in the library whose blob is stored, a time report of
42 seconds writes the progress through to the persisted metadata snapshot:
reloading the library afterwards yields a descriptor for that id with
progress 42. -/
theorem c4_progress_write_through (s : AppState) (id : MediaId) (b : JFile)
    (hmem : id ∈ s.mediaFiles.map MediaFile.id)
    (hblob : retrieveFileBlob s.blobs id = some b) :
    ∃ d ∈ loadData (updateProgress s id 42).localStorage (updateProgress s id 42).blobs,
      d.id = id ∧ d.progress = 42 := by
  obtain ⟨f, hf, hfid⟩ := List.mem_map.mp hmem
  refine ⟨rehydrate (stripFile { f with progress := 42 }) b, ?_, ?_, ?_⟩
  · unfold loadData
    refine List.mem_filterMap.mpr ⟨stripFile { f with progress := 42 }, ?_, ?_⟩
    · show stripFile { f with progress := (42 : Rat) }
          ∈ (s.mediaFiles.map
              (fun g => if g.id = id then { g with progress := (42 : Rat) } else g)).map stripFile
      exact List.mem_map.mpr
        ⟨{ f with progress := 42 },
         List.mem_map.mpr ⟨f, hf, by rw [if_pos hfid]⟩, rfl⟩
    · show (retrieveFileBlob s.blobs f.id).map (rehydrate (stripFile { f with progress := 42 }))
          = some (rehydrate (stripFile { f with progress := 42 }) b)
      rw [hfid, hblob]
      rfl
  · exact hfid
  · rfl

/-- C4 (witness): in the concrete one-asset state, after a 42-second time
report the reloaded library holds that asset with progress 42. -/
theorem c4_progress_write_through_witness :
    (MediaId.upload 1 0 ∈ wState.mediaFiles.map MediaFile.id
      ∧ retrieveFileBlob wState.blobs (MediaId.upload 1 0) = some wFile)
    ∧ ∃ d ∈ loadData (updateProgress wState (MediaId.upload 1 0) 42).localStorage
          (updateProgress wState (MediaId.upload 1 0) 42).blobs,
        d.id = MediaId.upload 1 0 ∧ d.progress = 42 :=
  ⟨⟨by decide, by decide⟩,
   c4_progress_write_through wState (MediaId.upload 1 0) wFile (by decide) (by decide)⟩

/-! ### C5: handle memoization -/

theorem acquire_lookup (st : HandleState) (id : MediaId) :
    alookup (createAndTrackObjectURL st id).2.objectUrls id
      = some (createAndTrackObjectURL st id).1 := by
  unfold createAndTrackObjectURL
  cases h : alookup st.objectUrls id with
  | some u => simp [h]
  | none => simp [h, alookup_cons]

theorem acquire_of_lookup_some {st : HandleState} {id : MediaId} {u : Nat}
    (h : alookup st.objectUrls id = some u) :
    createAndTrackObjectURL st id = (u, st) := by
  unfold createAndTrackObjectURL
  rw [h]

theorem acquire_of_lookup_none {st : HandleState} {id : MediaId}
    (h : alookup st.objectUrls id = none) :
    createAndTrackObjectURL st id
      = (st.nextUrl,
         { objectUrls := (id, st.nextUrl) :: st.objectUrls, nextUrl := st.nextUrl + 1 }) := by
  unfold createAndTrackObjectURL
  rw [h]

theorem release_lookup_none (st : HandleState) (id : MediaId) :
    alookup (releaseObjectURL st id).objectUrls id = none := by
  unfold releaseObjectURL
  cases h : alookup st.objectUrls id with
  | some u => exact alookup_aerase_self st.objectUrls id
  | none => exact h

theorem release_nextUrl (st : HandleState) (id : MediaId) :
    (releaseObjectURL st id).nextUrl = st.nextUrl := by
  unfold releaseObjectURL
  cases alookup st.objectUrls id <;> rfl

theorem acquire_url_lt (st : HandleState) (id : MediaId) (hwf : HandleWF st) :
    (createAndTrackObjectURL st id).1 < (createAndTrackObjectURL st id).2.nextUrl := by
  cases h : alookup st.objectUrls id with
  | some u =>
      rw [acquire_of_lookup_some h]
      exact hwf (id, u) (alookup_mem h)
  | none =>
      rw [acquire_of_lookup_none h]
      exact Nat.lt_succ_self st.nextUrl

theorem handleWF_empty : HandleWF emptyHandles := by
  intro p hp
  exact absurd hp (List.not_mem_nil p)

/-- C5: in a well-formed handle state, a second acquire for the same asset
id returns the same uri and the very same state (nothing is allocated),
while an acquire after a release of that id returns a different uri. -/
theorem c5_handle_memoization (st : HandleState) (id : MediaId) (hwf : HandleWF st) :
    createAndTrackObjectURL (createAndTrackObjectURL st id).2 id
        = ((createAndTrackObjectURL st id).1, (createAndTrackObjectURL st id).2)
    ∧ (createAndTrackObjectURL
         (releaseObjectURL (createAndTrackObjectURL st id).2 id) id).1
        ≠ (createAndTrackObjectURL st id).1 := by
  constructor
  · exact acquire_of_lookup_some (acquire_lookup st id)
  · rw [acquire_of_lookup_none
          (release_lookup_none (createAndTrackObjectURL st id).2 id)]
    show (releaseObjectURL (createAndTrackObjectURL st id).2 id).nextUrl
        ≠ (createAndTrackObjectURL st id).1
    rw [release_nextUrl]
    have hlt := acquire_url_lt st id hwf
    omega

/-- C5 (witness): from the empty handle state and a concrete asset id, the
second acquire is memoized and release-then-acquire yields a fresh uri. -/
theorem c5_handle_memoization_witness :
    HandleWF emptyHandles
    ∧ (createAndTrackObjectURL (createAndTrackObjectURL emptyHandles (MediaId.upload 0 0)).2
          (MediaId.upload 0 0)
        = ((createAndTrackObjectURL emptyHandles (MediaId.upload 0 0)).1,
           (createAndTrackObjectURL emptyHandles (MediaId.upload 0 0)).2)
      ∧ (createAndTrackObjectURL
           (releaseObjectURL (createAndTrackObjectURL emptyHandles (MediaId.upload 0 0)).2
             (MediaId.upload 0 0)) (MediaId.upload 0 0)).1
          ≠ (createAndTrackObjectURL emptyHandles (MediaId.upload 0 0)).1) :=
  ⟨handleWF_empty, c5_handle_memoization emptyHandles (MediaId.upload 0 0) handleWF_empty⟩

/-! ### C6: the persisted snapshot excludes the binary payload -/

/-- C6: the snapshot written by save is exactly the list of descriptors with
the binary payload field removed, and it is therefore independent of the
payloads: replacing every record's payload by anything at all yields the
same persisted snapshot. -/
theorem c6_snapshot_excludes_payload (arr : List MediaFile) (repl : MediaFile → JFile) :
    saveMetadataToLocalStorage arr = .snapshot (arr.map stripFile)
    ∧ saveMetadataToLocalStorage (arr.map (fun m => { m with file := repl m }))
        = saveMetadataToLocalStorage arr := by
  refine ⟨rfl, ?_⟩
  unfold saveMetadataToLocalStorage
  rw [List.map_map]
  rfl

/-! ### C7: oversized files are rejected individually -/

/-- C7: when the quota accommodates every file within the size limit, adding
a batch persists exactly the files within the limit — each with its blob in
the store and its record appended to the library — and reports each
oversized file with its own alert, without aborting the rest of the batch. -/
theorem c7_oversized_rejection (s : AppState) (now : Nat) (fs : List JFile)
    (hq : sizeSum s.blobs.entries + ((fs.filter okSize).map JFile.size).sum ≤ s.blobs.quota)
    (hsome : (fs.filter okSize).length ≠ 0) :
    (processBatch now s.blobs fs 0).2.1.length = (fs.filter okSize).length
    ∧ (processBatch now s.blobs fs 0).2.2
        = (fs.filter (fun f => !(okSize f))).map (fun f => Alert.oversized f.name)
    ∧ (∀ m ∈ (processBatch now s.blobs fs 0).2.1,
        retrieveFileBlob (processBatch now s.blobs fs 0).1 m.id = some m.file)
    ∧ (addFiles s now (some fs)).1.mediaFiles
        = s.mediaFiles ++ (processBatch now s.blobs fs 0).2.1
    ∧ (addFiles s now (some fs)).2
        = (processBatch now s.blobs fs 0).2.2
            ++ [Alert.success (fs.filter okSize).length] := by
  obtain ⟨h1, h2⟩ := processBatch_success now fs s.blobs 0 hq
  have hstored := processBatch_stored now fs s.blobs 0
  have hfs : ¬(fs.length = 0) := by
    intro h0
    rw [List.length_eq_zero] at h0
    subst h0
    simp at hsome
  have hnz : ¬((processBatch now s.blobs fs 0).2.1.length = 0) := by
    rw [h1]
    exact hsome
  refine ⟨h1, h2, hstored, ?_, ?_⟩
  · simp only [addFiles]
    rw [if_neg hfs, if_neg hnz]
  · simp only [addFiles]
    rw [if_neg hfs, if_neg hnz, h1]

/-- C7 (witness): a quota-unconstrained 3-file batch with one file over the
ceiling persists exactly 2 records and the oversized one is reported. -/
theorem c7_oversized_rejection_witness :
    (sizeSum (emptyState 100).blobs.entries
        + ((([sampleFileA, oversizedFile, sampleFileB]).filter okSize).map JFile.size).sum
        ≤ (emptyState 100).blobs.quota
      ∧ (([sampleFileA, oversizedFile, sampleFileB]).filter okSize).length ≠ 0)
    ∧ (processBatch 7 (emptyState 100).blobs [sampleFileA, oversizedFile, sampleFileB] 0).2.1.length
        = (([sampleFileA, oversizedFile, sampleFileB]).filter okSize).length
    ∧ (([sampleFileA, oversizedFile, sampleFileB]).filter okSize).length = 2
    ∧ (processBatch 7 (emptyState 100).blobs [sampleFileA, oversizedFile, sampleFileB] 0).2.2
        = [Alert.oversized "big.mp4"] :=
  ⟨⟨by decide, by decide⟩,
   (c7_oversized_rejection (emptyState 100) 7 [sampleFileA, oversizedFile, sampleFileB]
      (by decide) (by decide)).1,
   by decide, by decide⟩

/-! ### C8: load drops descriptors whose blob is missing -/

/-- C8: loading returns exactly the persisted descriptors whose blob exists
in the blob store — a descriptor whose blob is missing is dropped rather
than failing the load. -/
theorem c8_load_drops_missing (ls : LSVal) (bs : BlobStore) :
    (loadData ls bs).map stripFile
      = (getMetadataFromLocalStorage ls).filter
          (fun m => (retrieveFileBlob bs m.id).isSome) := by
  unfold loadData
  induction getMetadataFromLocalStorage ls with
  | nil => rfl
  | cons m rest ih =>
      cases h : retrieveFileBlob bs m.id with
      | none => simp [List.filterMap_cons, List.filter_cons, h, ih]
      | some b => simp [List.filterMap_cons, List.filter_cons, h, ih, stripFile_rehydrate]

/-! ### C9: add with a null, undefined or empty list is a no-op -/

/-- C9: calling addFiles with a null or undefined list (`none`) or with an
empty list returns at once with no alert and the state — library list,
metadata snapshot, blob store — unchanged. -/
theorem c9_add_empty_noop (s : AppState) (now : Nat) :
    addFiles s now none = (s, []) ∧ addFiles s now (some []) = (s, []) := by
  exact ⟨rfl, rfl⟩

/-! ### C10: reading the snapshot never throws -/

/-- C10: the metadata read is total: an absent snapshot reads as `[]`, an
unparseable one (where the raw read throws) also reads as `[]`, and a
parseable one reads as its contents — no error propagates. -/
theorem c10_read_never_throws (ls : LSVal) :
    getMetadataFromLocalStorage .absent = []
    ∧ getMetadataFromLocalStorage .corrupt = []
    ∧ (∀ e, rawReadMetadata ls = .error e → getMetadataFromLocalStorage ls = [])
    ∧ (∀ metas, rawReadMetadata ls = .ok metas → getMetadataFromLocalStorage ls = metas) := by
  refine ⟨rfl, rfl, ?_, ?_⟩
  · intro e he
    unfold getMetadataFromLocalStorage
    rw [he]
  · intro metas hm
    unfold getMetadataFromLocalStorage
    rw [hm]

/-- C10 (witness): at the concrete corrupt snapshot the raw read throws and
the wrapped read returns the empty list. -/
theorem c10_read_never_throws_witness :
    rawReadMetadata .corrupt = .error "SyntaxError"
    ∧ getMetadataFromLocalStorage .corrupt = [] :=
  ⟨rfl, (c10_read_never_throws .corrupt).2.2.1 "SyntaxError" rfl⟩

end LocalFiles
